import Mathlib

/-!
Shallow embedding of the `unicol-sandbox` Unicode Collation Algorithm core
(`src/lib.rs`), together with theorems settling the frozen claims about it.

Embedding conventions.

* Machine integers (`u16`, `u32`, `u8`) are modelled as `Nat`; the only cast
  on the traced paths is `as u16` in the implicit-weight generators, modelled
  as `% 65536`.
* A Rust `&str` is modelled as its sequence of Unicode scalar values
  (`List Nat`): two strings are byte-equal iff their scalar sequences are
  equal, and `str::cmp` (UTF-8 byte order) coincides with lexicographic
  order on scalar values, which `compareL` implements.
* The weight tables (`low`, `singles`, `multis`, both DUCET and CLDR), the
  FCD table, the canonical-combining-class function of the external
  `unicode-canonical-combining-class` crate and the NFD transform of the
  external `unicode-normalization` crate are not source files of this
  repository: they are embedded binary blobs or third-party crates.  They
  are therefore parameters of the embedding, collected in the `Ctx`
  structure; every function takes the `Ctx` it reads from.
* `HashMap::get` is `Option`-valued lookup.  The one `unwrap` on the hot
  path (`low.get(...).unwrap()`, justified in the source by table
  construction) is modelled with `Option.getD` and a default record.
* A Rust `Ordering` is a Lean `Ordering` (`Less ↦ .lt`, `Equal ↦ .eq`,
  `Greater ↦ .gt`).
* `get_cea` mutates its code-point buffer in place, but only ever reads or
  removes at indices `≥ left`; it is embedded as a recursion over the tail
  `char_vals[left..]`, where `left += k` becomes `List.drop k` and
  `Vec::remove(i)` becomes `List.eraseIdx` at the tail-relative index.
  The outer loop runs each iteration through `step`; since every iteration
  strictly shortens the tail (proved below), a fuel of `cv.length` makes the
  fuelled recursion `getCeaAux` compute exactly the loop's result.
-/

/-- Weights record: `struct Weights` of `src/lib.rs` (the Rust field
`variable` is a Lean keyword, so it is named `var` here). -/
structure Weights where
  var : Bool
  primary : Nat
  secondary : Nat
  tertiary : Nat
deriving DecidableEq, Repr

instance : Inhabited Weights := ⟨⟨false, 0, 0, 0⟩⟩

/-- Table source selector: `enum KeysSource`. -/
inductive KeysSource where
  | Cldr
  | Ducet
deriving DecidableEq, Repr

/-- Collation options: `struct CollationOptions`. -/
structure CollationOptions where
  keysSource : KeysSource
  shifting : Bool
deriving DecidableEq, Repr

/-- The `opt.keys_source == KeysSource::Cldr` test used by `collate`,
`collate_no_tiebreak` and `get_cea`. -/
def isCldr (opt : CollationOptions) : Bool :=
  match opt.keysSource with
  | KeysSource.Cldr => true
  | KeysSource.Ducet => false

/-- A collation element: an `ArrayVec<[u16; 4]>` holding 3 weights
(non-shifting) or 4 weights (shifting).  Indexing `elem[i]` is modelled by
`List.getD · i 0`; on every path of the program the index is in bounds. -/
abbrev CE := List Nat

/-- External data the core consumes: the six weight tables, the FCD table,
the external CCC function, and the external NFD transform.  These are blobs
and crates outside `src/`, hence parameters of the embedding. -/
structure Ctx where
  lowD : Nat → Option Weights
  lowC : Nat → Option Weights
  singD : Nat → Option (List Weights)
  singC : Nat → Option (List Weights)
  multD : List Nat → Option (List Weights)
  multC : List Nat → Option (List Weights)
  fcdMap : Nat → Option Nat
  ccc : Nat → Nat
  nfd : List Nat → List Nat

/-- Table selection `if cldr { &LOW_CLDR } else { &LOW }`. -/
def lowT (ctx : Ctx) (cldr : Bool) : Nat → Option Weights :=
  if cldr then ctx.lowC else ctx.lowD

/-- Table selection `if cldr { &SING_CLDR } else { &SING }`. -/
def singT (ctx : Ctx) (cldr : Bool) : Nat → Option (List Weights) :=
  if cldr then ctx.singC else ctx.singD

/-- Table selection `if cldr { &MULT_CLDR } else { &MULT }`. -/
def multT (ctx : Ctx) (cldr : Bool) : List Nat → Option (List Weights) :=
  if cldr then ctx.multC else ctx.multD

/-- `const NEED_THREE: [u32; 4]`. -/
def NEED_THREE : List Nat := [3270, 3545, 4018, 4019]

/-- `const NEED_TWO: [u32; 59]`. -/
def NEED_TWO : List Nat :=
  [76, 108, 1048, 1080, 1575, 1608, 1610, 2503, 2887, 2962, 3014, 3015, 3142,
   3263, 3274, 3398, 3399, 3548, 3648, 3649, 3650, 3651, 3652, 3661, 3776,
   3777, 3778, 3779, 3780, 3789, 3953, 4133, 6581, 6582, 6583, 6586, 6917,
   6919, 6921, 6923, 6925, 6929, 6970, 6972, 6974, 6975, 6978, 43701, 43702,
   43705, 43707, 43708, 69937, 69938, 70471, 70841, 71096, 71097, 71989]

/-- `const INCLUDED_UNASSIGNED: [u32; 4]`. -/
def INCLUDED_UNASSIGNED : List Nat := [177977, 178206, 183970, 191457]

/-- Lexicographic comparison of `u16` sequences, as `Vec::<u16>::cmp` (and,
on scalar-value sequences, as `str::cmp`): elementwise, with a strict prefix
comparing less. -/
def compareL : List Nat → List Nat → Ordering
  | [], [] => Ordering.eq
  | [], _ :: _ => Ordering.lt
  | _ :: _, [] => Ordering.gt
  | a :: as_, b :: bs =>
      (if a < b then Ordering.lt else if b < a then Ordering.gt else Ordering.eq).then
        (compareL as_ bs)

/-- Lead CCC of the FCD table entry for `c`: the high byte of the packed
`u16`, or the code point's own CCC when the table has no entry (the
`to_be_bytes` unpacking in `fcd`). -/
def leadCC (ctx : Ctx) (c : Nat) : Nat :=
  match ctx.fcdMap c with
  | some v => v / 256
  | none => ctx.ccc c

/-- Trail CCC of the FCD table entry for `c`: the low byte of the packed
`u16`, or the code point's own CCC when the table has no entry. -/
def trailCC (ctx : Ctx) (c : Nat) : Nat :=
  match ctx.fcdMap c with
  | some v => v % 256
  | none => ctx.ccc c

/-- Loop body of `fcd`, carrying `prev_trail_cc`. -/
def fcdAux (ctx : Ctx) : Nat → List Nat → Bool
  | _, [] => true
  | prev, c :: rest =>
      if c < 192 then fcdAux ctx 0 rest
      else if c = 3969 ∨ (44032 ≤ c ∧ c ≤ 55215) then false
      else if leadCC ctx c ≠ 0 ∧ leadCC ctx c < prev then false
      else fcdAux ctx (trailCC ctx c) rest

/-- `fn fcd(input: &str) -> bool`. -/
def fcd (ctx : Ctx) (input : List Nat) : Bool :=
  fcdAux ctx 0 input

/-- `fn get_nfd(input: &str) -> Vec<u32>`: the input verbatim when the FCD
check passes, otherwise the external NFD transform. -/
def getNfd (ctx : Ctx) (input : List Nat) : List Nat :=
  if fcd ctx input then input else ctx.nfd input

/-- `fn find_prefix`: length of the longest common prefix none of whose
elements lies in `NEED_THREE` or `NEED_TWO` (the `zip`/`take_while`/`count`
chain of the source, written recursively). -/
def findPref : List Nat → List Nat → Nat
  | x :: xs, y :: ys =>
      if x = y ∧ NEED_THREE.contains x = false ∧ NEED_TWO.contains x = false then
        findPref xs ys + 1
      else 0
  | _, _ => 0

/-- `fn trim_prefix`: drop the common prefix from both sequences unless the
final prefix code point has a singles row containing a variable or
zero-primary entry.  Note the source `if let Some(row)` guard: when the code
point has no singles row at all, the trim still happens. -/
def trimPref (ctx : Ctx) (cldr : Bool) (a b : List Nat) : List Nat × List Nat :=
  let p := findPref a b
  if 0 < p then
    match singT ctx cldr (a.getD (p - 1) 0) with
    | some row =>
        if row.any (fun w => w.var || w.primary == 0) then (a, b)
        else (a.drop p, b.drop p)
    | none => (a.drop p, b.drop p)
  else (a, b)

/-- Level `i` of the sort key: the `i`-th weight of each collation element,
keeping only nonzero values (the inner loop of `get_sort_key`). -/
def levelW (cea : List CE) (i : Nat) : List Nat :=
  cea.filterMap (fun e => if e.getD i 0 ≠ 0 then some (e.getD i 0) else none)

/-- `fn get_sort_key`: level-major flattening with a single `0` separator
before every level after the first, and no terminator. -/
def getSortKey (cea : List CE) (shifting : Bool) : List Nat :=
  (List.range (if shifting then 4 else 3)).foldl
    (fun sk i => sk ++ (if 0 < i then [0] else []) ++ levelW cea i) []

/-- `fn get_weights_shifting`. -/
def getWeightsShifting (w : Weights) (lastVariable : Bool) : CE :=
  if w.primary = 0 ∧ w.secondary = 0 ∧ w.tertiary = 0 then [0, 0, 0, 0]
  else if w.var then [0, 0, 0, w.primary]
  else if lastVariable ∧ w.primary = 0 ∧ w.tertiary ≠ 0 then [0, 0, 0, 0]
  else [w.primary, w.secondary, w.tertiary, 65535]

/-- One weights record pushed to the CE array, together with the
`last_variable` update performed at every push site of `get_cea`:
`if weights.variable { last_variable = true } else if weights.primary != 0
{ last_variable = false }`.  In non-shifting mode the element is the bare
3-weight vector and `last_variable` is untouched. -/
def pushW (shifting : Bool) (w : Weights) (lv : Bool) : CE × Bool :=
  if shifting then
    (getWeightsShifting w lv,
     if w.var then true else if w.primary ≠ 0 then false else lv)
  else ([w.primary, w.secondary, w.tertiary], lv)

/-- A whole weights row pushed in order, threading `last_variable`. -/
def pushRow (shifting : Bool) (row : List Weights) (lv : Bool) : List CE × Bool :=
  match row with
  | [] => ([], lv)
  | w :: ws =>
      let (e, lv') := pushW shifting w lv
      let (es, lv'') := pushRow shifting ws lv'
      (e :: es, lv'')

/-- `fn get_implicit_a`. -/
def getImplicitA (v : Nat) (shifting : Bool) : CE :=
  let aaaa0 :=
    if 13312 ≤ v ∧ v ≤ 19903 then 64384 + (v >>> 15)
    else if 19968 ≤ v ∧ v ≤ 40959 then 64320 + (v >>> 15)
    else if 63744 ≤ v ∧ v ≤ 64255 then 64320 + (v >>> 15)
    else if 94208 ≤ v ∧ v ≤ 101119 then 64256
    else if 101120 ≤ v ∧ v ≤ 101631 then 64258
    else if 101632 ≤ v ∧ v ≤ 101775 then 64256
    else if 110960 ≤ v ∧ v ≤ 111359 then 64257
    else if 131072 ≤ v ∧ v ≤ 173791 then 64384 + (v >>> 15)
    else if 173824 ≤ v ∧ v ≤ 191471 then 64384 + (v >>> 15)
    else if 196608 ≤ v ∧ v ≤ 201551 then 64384 + (v >>> 15)
    else 64448 + (v >>> 15)
  let aaaa := if INCLUDED_UNASSIGNED.contains v then 64448 + (v >>> 15) else aaaa0
  if shifting then [aaaa % 65536, 32, 2, 65535] else [aaaa % 65536, 32, 2]

/-- `fn get_implicit_b`. -/
def getImplicitB (v : Nat) (shifting : Bool) : CE :=
  let bbbb0 :=
    if 13312 ≤ v ∧ v ≤ 19903 then v &&& 32767
    else if 19968 ≤ v ∧ v ≤ 40959 then v &&& 32767
    else if 63744 ≤ v ∧ v ≤ 64255 then v &&& 32767
    else if 94208 ≤ v ∧ v ≤ 101119 then v - 94208
    else if 101120 ≤ v ∧ v ≤ 101631 then v - 101120
    else if 101632 ≤ v ∧ v ≤ 101775 then v - 94208
    else if 110960 ≤ v ∧ v ≤ 111359 then v - 110960
    else if 131072 ≤ v ∧ v ≤ 173791 then v &&& 32767
    else if 173824 ≤ v ∧ v ≤ 191471 then v &&& 32767
    else if 196608 ≤ v ∧ v ≤ 201551 then v &&& 32767
    else v &&& 32767
  let bbbb1 := if INCLUDED_UNASSIGNED.contains v then v &&& 32767 else bbbb0
  let bbbb := bbbb1 ||| 32768
  if shifting then [bbbb % 65536, 0, 0, 65535] else [bbbb % 65536, 0, 0]

/-- CCC-validation walk of the discontiguous-match cohort (the `for elem in
interest_cohort` loop): succeeds when every element has a nonzero CCC
strictly greater than all preceding ones, starting from `max_ccc = 0`. -/
def cccOk (ctx : Ctx) : List Nat → Nat → Bool
  | [], _ => true
  | e :: es, maxc =>
      if ctx.ccc e = 0 ∨ ctx.ccc e ≤ maxc then false else cccOk ctx es (ctx.ccc e)

/-- Inner (`'inner`) loop of `get_cea` for a single starter matched in the
singles table: search for a discontiguous match at tail-relative position
`m ∈ {1, 2, 3}` (`max_right`, with `right = left + 1`), with `tryTwo`
attempting a three-point key first.  The measure `2*m + tryTwo` strictly
decreases each iteration and starts at most 7, so the loop is run through a
fuel parameter called with fuel 7; the fuel-exhausted branch coincides with
the loop-exit branch and is never reached. -/
def innerLoop (ctx : Ctx) (sh cldr : Bool) (v : Nat) (row : List Weights)
    (t : List Nat) (lv : Bool) : Nat → Nat → Bool → List CE × List Nat × Bool
  | 0, _, _ => ((pushRow sh row lv).1, t.drop 1, (pushRow sh row lv).2)
  | fuel + 1, m, tryTwo =>
      if m ≤ 1 then ((pushRow sh row lv).1, t.drop 1, (pushRow sh row lv).2)
      else if cccOk ctx ((t.drop 1).take m) 0 = false then
        innerLoop ctx sh cldr v row t lv fuel (m - 1) false
      else
        let cand :=
          if tryTwo then [v, t.getD (m - 1) 0, t.getD m 0] else [v, t.getD m 0]
        match multT ctx cldr cand with
        | some nv =>
            ((pushRow sh nv lv).1,
             ((if tryTwo then (t.eraseIdx m).eraseIdx (m - 1) else t.eraseIdx m)).drop 1,
             (pushRow sh nv lv).2)
        | none =>
            if tryTwo then innerLoop ctx sh cldr v row t lv fuel m false
            else innerLoop ctx sh cldr v row t lv fuel (m - 1) tryTwo

/-- Middle (`'middle`) loop of `get_cea`, on the tail `t = char_vals[left..]`
with `r = right - left`: longest-slice search in the multis table, falling
back to the singles-plus-discontiguous search at `r = 1` and to implicit
weights at `r = 0`. -/
def middleLoop (ctx : Ctx) (sh cldr : Bool) (t : List Nat) (lv : Bool) :
    Nat → List CE × List Nat × Bool
  | 0 =>
      ([getImplicitA (t.getD 0 0) sh, getImplicitB (t.getD 0 0) sh], t.drop 1, lv)
  | 1 =>
      match singT ctx cldr (t.getD 0 0) with
      | none =>
          ([getImplicitA (t.getD 0 0) sh, getImplicitB (t.getD 0 0) sh], t.drop 1, lv)
      | some row =>
          let m := if 3 < t.length then 3 else if 2 < t.length then 2 else 1
          innerLoop ctx sh cldr (t.getD 0 0) row t lv 7 m (m == 3 && cldr)
  | r + 2 =>
      let subset := t.take (r + 2)
      match multT ctx cldr subset with
      | none => middleLoop ctx sh cldr t lv (r + 1)
      | some row =>
          if r + 2 = 2 ∧ 3 < t.length then
            if ctx.ccc (t.getD 2 0) = 0 ∨ ctx.ccc (t.getD 3 0) ≤ ctx.ccc (t.getD 2 0) then
              ((pushRow sh row lv).1, t.drop (r + 2), (pushRow sh row lv).2)
            else
              match multT ctx cldr (subset ++ [t.getD 3 0]) with
              | some nv =>
                  ((pushRow sh nv lv).1, (t.eraseIdx 3).drop 2, (pushRow sh nv lv).2)
              | none =>
                  ((pushRow sh row lv).1, t.drop (r + 2), (pushRow sh row lv).2)
          else ((pushRow sh row lv).1, t.drop (r + 2), (pushRow sh row lv).2)

/-- One iteration of the outer (`'outer`) loop of `get_cea` on the tail
`t = char_vals[left..]`: returns the collation elements emitted, the new
tail, and the new `last_variable`. -/
def step (ctx : Ctx) (opt : CollationOptions) (t : List Nat) (lv : Bool) :
    List CE × List Nat × Bool :=
  let sh := opt.shifting
  let cldr := isCldr opt
  match t with
  | [] => ([], [], lv)
  | v :: rest =>
      if v < 183 ∧ v ≠ 108 ∧ v ≠ 76 then
        let (e, lv') := pushW sh ((lowT ctx cldr v).getD default) lv
        ([e], rest, lv')
      else
        let lookahead :=
          if NEED_THREE.contains v then 3 else if NEED_TWO.contains v then 2 else 1
        if (1 < lookahead ∧ 1 < t.length) then
          middleLoop ctx sh cldr t lv (min lookahead t.length)
        else
          match singT ctx cldr v with
          | some row =>
              let (es, lv') := pushRow sh row lv
              (es, rest, lv')
          | none => ([getImplicitA v sh, getImplicitB v sh], rest, lv)

/-- Fuelled outer loop of `get_cea`.  Every `step` on a nonempty tail
strictly shortens it (proved below), so fuel `cv.length` computes the loop
exactly; the fuel-exhausted branch is never reached. -/
def getCeaAux (ctx : Ctx) (opt : CollationOptions) :
    Nat → List Nat → Bool → List CE
  | 0, _, _ => []
  | _ + 1, [], _ => []
  | fuel + 1, t@(_ :: _), lv =>
      let (es, t', lv') := step ctx opt t lv
      es ++ getCeaAux ctx opt fuel t' lv'

/-- `fn get_cea`: outer loop from `left = 0` and `last_variable = false`. -/
def getCea (ctx : Ctx) (opt : CollationOptions) (cv : List Nat) : List CE :=
  getCeaAux ctx opt cv.length cv false

/-- `fn nfd_to_sk`. -/
def nfdToSk (ctx : Ctx) (opt : CollationOptions) (nfdv : List Nat) : List Nat :=
  getSortKey (getCea ctx opt nfdv) opt.shifting

/-- Sort key of a string, produced independently of any comparison: NFD,
then CE generation, then flattening, with no prefix trimming. -/
def skOf (ctx : Ctx) (opt : CollationOptions) (s : List Nat) : List Nat :=
  nfdToSk ctx opt (getNfd ctx s)

/-- `pub fn collate_no_tiebreak`. -/
def collateNoTiebreak (ctx : Ctx) (opt : CollationOptions) (a b : List Nat) :
    Ordering :=
  if a = b then Ordering.eq
  else
    let na := getNfd ctx a
    let nb := getNfd ctx b
    if na = nb then Ordering.eq
    else
      let p := trimPref ctx (isCldr opt) na nb
      compareL (nfdToSk ctx opt p.1) (nfdToSk ctx opt p.2)

/-- `pub fn collate`. -/
def collate (ctx : Ctx) (opt : CollationOptions) (a b : List Nat) : Ordering :=
  if a = b then Ordering.eq
  else
    let na := getNfd ctx a
    let nb := getNfd ctx b
    if na = nb then compareL a b
    else
      let p := trimPref ctx (isCldr opt) na nb
      let c := compareL (nfdToSk ctx opt p.1) (nfdToSk ctx opt p.2)
      if c = Ordering.eq then compareL a b else c

/-! Helper lemmas about `Ordering.then` and `compareL`. -/

theorem ordThen_assoc (a b c : Ordering) : (a.then b).then c = a.then (b.then c) := by
  cases a <;> rfl

theorem compareL_self (x : List Nat) : compareL x x = Ordering.eq := by
  induction x with
  | nil => rfl
  | cons a as_ ih => simp [compareL, ih, Ordering.then]

theorem compareL_eq_iff (x y : List Nat) : compareL x y = Ordering.eq ↔ x = y := by
  induction x generalizing y with
  | nil => cases y <;> simp [compareL]
  | cons a as_ ih =>
      cases y with
      | nil => simp [compareL]
      | cons b bs =>
          by_cases hab : a < b
          · simp [compareL, hab, Ordering.then]
            omega
          · by_cases hba : b < a
            · simp [compareL, hab, hba, Ordering.then]
              omega
            · have : a = b := by omega
              subst this
              simp [compareL, Ordering.then, ih]

theorem compareL_append_cancel (p u v : List Nat) :
    compareL (p ++ u) (p ++ v) = compareL u v := by
  induction p with
  | nil => rfl
  | cons a ps ih => simp [compareL, ih, Ordering.then]

theorem compareL_sep (u v x y : List Nat) (hu : ∀ z ∈ u, z ≠ 0)
    (hv : ∀ z ∈ v, z ≠ 0) :
    compareL (u ++ 0 :: x) (v ++ 0 :: y) = (compareL u v).then (compareL x y) := by
  induction u generalizing v with
  | nil =>
      cases v with
      | nil => simp [compareL, Ordering.then]
      | cons b bs =>
          haveI hb : b ≠ 0 := hv b (by simp)
          simp [compareL, Nat.pos_of_ne_zero hb, Ordering.then]
  | cons a as_ ih =>
      cases v with
      | nil =>
          haveI ha : a ≠ 0 := hu a (by simp)
          have hlt : ¬ a < 0 := by omega
          simp [compareL, hlt, Nat.pos_of_ne_zero ha, Ordering.then]
      | cons b bs =>
          have h1 : ∀ z ∈ as_, z ≠ 0 := fun z hz => hu z (by simp [hz])
          have h2 : ∀ z ∈ bs, z ≠ 0 := fun z hz => hv z (by simp [hz])
          have e1 : compareL ((a :: as_) ++ 0 :: x) ((b :: bs) ++ 0 :: y) =
              (if a < b then Ordering.lt else if b < a then Ordering.gt
                else Ordering.eq).then (compareL (as_ ++ 0 :: x) (bs ++ 0 :: y)) := rfl
          have e2 : compareL (a :: as_) (b :: bs) =
              (if a < b then Ordering.lt else if b < a then Ordering.gt
                else Ordering.eq).then (compareL as_ bs) := rfl
          rw [e1, e2, ih bs h1 h2, ordThen_assoc]

/-! Helper lemmas about `levelW` and `getSortKey`. -/

theorem levelW_append (c d : List CE) (i : Nat) :
    levelW (c ++ d) i = levelW c i ++ levelW d i := by
  simp [levelW]

theorem levelW_ne_zero (cea : List CE) (i : Nat) : ∀ z ∈ levelW cea i, z ≠ 0 := by
  intro z hz
  simp only [levelW, List.mem_filterMap] at hz
  obtain ⟨e, -, he⟩ := hz
  by_cases h : e.getD i 0 ≠ 0
  · rw [if_pos h] at he
    exact (Option.some_inj.mp he) ▸ h
  · rw [if_neg h] at he
    exact absurd he (by simp)

theorem getSortKey_shifting (cea : List CE) :
    getSortKey cea true =
      levelW cea 0 ++ 0 :: (levelW cea 1 ++ 0 :: (levelW cea 2 ++ 0 :: levelW cea 3)) := by
  show (List.range 4).foldl _ [] = _
  have h4 : List.range 4 = [0, 1, 2, 3] := by decide
  simp [h4, List.foldl]

theorem getSortKey_nonshifting (cea : List CE) :
    getSortKey cea false =
      levelW cea 0 ++ 0 :: (levelW cea 1 ++ 0 :: levelW cea 2) := by
  show (List.range 3).foldl _ [] = _
  have h3 : List.range 3 = [0, 1, 2] := by decide
  simp [h3, List.foldl]

theorem cmp_levels3 (P0 P1 P2 A0 A1 A2 B0 B1 B2 : List Nat)
    (hP0 : ∀ z ∈ P0, z ≠ 0) (hP1 : ∀ z ∈ P1, z ≠ 0)
    (hA0 : ∀ z ∈ A0, z ≠ 0) (hA1 : ∀ z ∈ A1, z ≠ 0)
    (hB0 : ∀ z ∈ B0, z ≠ 0) (hB1 : ∀ z ∈ B1, z ≠ 0) :
    compareL ((P0 ++ A0) ++ 0 :: ((P1 ++ A1) ++ 0 :: (P2 ++ A2)))
        ((P0 ++ B0) ++ 0 :: ((P1 ++ B1) ++ 0 :: (P2 ++ B2))) =
      compareL (A0 ++ 0 :: (A1 ++ 0 :: A2)) (B0 ++ 0 :: (B1 ++ 0 :: B2)) := by
  have m0a : ∀ z ∈ P0 ++ A0, z ≠ 0 := by
    intro z hz
    rcases List.mem_append.1 hz with h | h
    exacts [hP0 z h, hA0 z h]
  have m0b : ∀ z ∈ P0 ++ B0, z ≠ 0 := by
    intro z hz
    rcases List.mem_append.1 hz with h | h
    exacts [hP0 z h, hB0 z h]
  have m1a : ∀ z ∈ P1 ++ A1, z ≠ 0 := by
    intro z hz
    rcases List.mem_append.1 hz with h | h
    exacts [hP1 z h, hA1 z h]
  have m1b : ∀ z ∈ P1 ++ B1, z ≠ 0 := by
    intro z hz
    rcases List.mem_append.1 hz with h | h
    exacts [hP1 z h, hB1 z h]
  rw [compareL_sep _ _ _ _ m0a m0b, compareL_sep _ _ _ _ m1a m1b,
    compareL_sep _ _ _ _ hA0 hB0, compareL_sep _ _ _ _ hA1 hB1,
    compareL_append_cancel, compareL_append_cancel, compareL_append_cancel]

theorem cmp_levels4 (P0 P1 P2 P3 A0 A1 A2 A3 B0 B1 B2 B3 : List Nat)
    (hP0 : ∀ z ∈ P0, z ≠ 0) (hP1 : ∀ z ∈ P1, z ≠ 0) (hP2 : ∀ z ∈ P2, z ≠ 0)
    (hA0 : ∀ z ∈ A0, z ≠ 0) (hA1 : ∀ z ∈ A1, z ≠ 0) (hA2 : ∀ z ∈ A2, z ≠ 0)
    (hB0 : ∀ z ∈ B0, z ≠ 0) (hB1 : ∀ z ∈ B1, z ≠ 0) (hB2 : ∀ z ∈ B2, z ≠ 0) :
    compareL ((P0 ++ A0) ++ 0 :: ((P1 ++ A1) ++ 0 :: ((P2 ++ A2) ++ 0 :: (P3 ++ A3))))
        ((P0 ++ B0) ++ 0 :: ((P1 ++ B1) ++ 0 :: ((P2 ++ B2) ++ 0 :: (P3 ++ B3)))) =
      compareL (A0 ++ 0 :: (A1 ++ 0 :: (A2 ++ 0 :: A3)))
        (B0 ++ 0 :: (B1 ++ 0 :: (B2 ++ 0 :: B3))) := by
  have mk : ∀ (X Y : List Nat), (∀ z ∈ X, z ≠ 0) → (∀ z ∈ Y, z ≠ 0) →
      ∀ z ∈ X ++ Y, z ≠ 0 := by
    intro X Y hX hY z hz
    rcases List.mem_append.1 hz with h | h
    exacts [hX z h, hY z h]
  rw [compareL_sep _ _ _ _ (mk _ _ hP0 hA0) (mk _ _ hP0 hB0),
    compareL_sep _ _ _ _ (mk _ _ hP1 hA1) (mk _ _ hP1 hB1),
    compareL_sep _ _ _ _ (mk _ _ hP2 hA2) (mk _ _ hP2 hB2),
    compareL_sep _ _ _ _ hA0 hB0, compareL_sep _ _ _ _ hA1 hB1,
    compareL_sep _ _ _ _ hA2 hB2,
    compareL_append_cancel, compareL_append_cancel, compareL_append_cancel,
    compareL_append_cancel]

theorem cmp_sk_append (c d1 d2 : List CE) (sh : Bool) :
    compareL (getSortKey (c ++ d1) sh) (getSortKey (c ++ d2) sh) =
      compareL (getSortKey d1 sh) (getSortKey d2 sh) := by
  cases sh
  · rw [getSortKey_nonshifting (c ++ d1), getSortKey_nonshifting (c ++ d2),
      getSortKey_nonshifting d1, getSortKey_nonshifting d2]
    simp only [levelW_append, ← List.append_assoc]
    exact cmp_levels3 _ _ _ _ _ _ _ _ _ (levelW_ne_zero c 0) (levelW_ne_zero c 1)
      (levelW_ne_zero d1 0) (levelW_ne_zero d1 1) (levelW_ne_zero d2 0)
      (levelW_ne_zero d2 1)
  · rw [getSortKey_shifting (c ++ d1), getSortKey_shifting (c ++ d2),
      getSortKey_shifting d1, getSortKey_shifting d2]
    simp only [levelW_append, ← List.append_assoc]
    exact cmp_levels4 _ _ _ _ _ _ _ _ _ _ _ _ (levelW_ne_zero c 0)
      (levelW_ne_zero c 1) (levelW_ne_zero c 2) (levelW_ne_zero d1 0)
      (levelW_ne_zero d1 1) (levelW_ne_zero d1 2) (levelW_ne_zero d2 0)
      (levelW_ne_zero d2 1) (levelW_ne_zero d2 2)

/-! Length bookkeeping: every loop of `get_cea` strictly shortens the tail. -/

theorem length_eraseIdx_le' (l : List Nat) (i : Nat) :
    (l.eraseIdx i).length ≤ l.length := by
  induction l generalizing i with
  | nil => simp [List.eraseIdx]
  | cons a as_ ih =>
      cases i with
      | zero => simp [List.eraseIdx]
      | succ j =>
          simpa [List.eraseIdx] using Nat.succ_le_succ (ih j)

theorem innerLoop_len (ctx : Ctx) (sh cldr : Bool) (v : Nat) (row : List Weights)
    (t : List Nat) (lv : Bool) (fuel m : Nat) (tryTwo : Bool) (ht : t ≠ []) :
    ((innerLoop ctx sh cldr v row t lv fuel m tryTwo).2.1).length < t.length := by
  have hpos : 0 < t.length := List.length_pos.mpr ht
  induction fuel generalizing m tryTwo with
  | zero =>
      simp only [innerLoop, List.length_drop]
      omega
  | succ fuel ih =>
      simp only [innerLoop]
      by_cases hm : m ≤ 1
      · simp only [if_pos hm, List.length_drop]
        omega
      · rw [if_neg hm]
        by_cases hccc : cccOk ctx ((t.drop 1).take m) 0 = false
        · rw [if_pos hccc]
          exact ih (m - 1) false
        · rw [if_neg hccc]
          cases hmt : multT ctx cldr
              (if tryTwo then [v, t.getD (m - 1) 0, t.getD m 0] else [v, t.getD m 0]) with
          | none =>
              simp only
              cases tryTwo
              · simpa using ih (m - 1) false
              · simpa using ih m false
          | some nv =>
              simp only [List.length_drop]
              cases tryTwo
              · have h1 := length_eraseIdx_le' t m
                simp only [Bool.false_eq_true, if_neg (by simp : ¬False)]
                omega
              · have h1 := length_eraseIdx_le' t m
                have h2 := length_eraseIdx_le' (t.eraseIdx m) (m - 1)
                simp only [if_pos trivial]
                omega

theorem middleLoop_len (ctx : Ctx) (sh cldr : Bool) (t : List Nat) (lv : Bool)
    (r : Nat) (ht : t ≠ []) :
    ((middleLoop ctx sh cldr t lv r).2.1).length < t.length := by
  have hpos : 0 < t.length := List.length_pos.mpr ht
  induction r using Nat.strong_induction_on with
  | _ r ih =>
      match r with
      | 0 =>
          simp only [middleLoop, List.length_drop]
          omega
      | 1 =>
          simp only [middleLoop]
          cases singT ctx cldr (t.getD 0 0) with
          | none =>
              simp only [List.length_drop]
              omega
          | some row => exact innerLoop_len ctx sh cldr _ row t lv 7 _ _ ht
      | r + 2 =>
          simp only [middleLoop]
          cases multT ctx cldr (t.take (r + 2)) with
          | none => exact ih (r + 1) (by omega)
          | some row =>
              dsimp only
              by_cases hd : r + 2 = 2 ∧ 3 < t.length
              · rw [if_pos hd]
                by_cases hccc : ctx.ccc (t.getD 2 0) = 0 ∨
                    ctx.ccc (t.getD 3 0) ≤ ctx.ccc (t.getD 2 0)
                · rw [if_pos hccc]
                  simp only [List.length_drop]
                  omega
                · rw [if_neg hccc]
                  cases multT ctx cldr (t.take (r + 2) ++ [t.getD 3 0]) with
                  | none =>
                      simp only [List.length_drop]
                      omega
                  | some nv =>
                      have h1 := length_eraseIdx_le' t 3
                      simp only [List.length_drop]
                      omega
              · rw [if_neg hd]
                simp only [List.length_drop]
                omega

theorem step_len (ctx : Ctx) (opt : CollationOptions) (t : List Nat) (lv : Bool)
    (ht : t ≠ []) : ((step ctx opt t lv).2.1).length < t.length := by
  match t with
  | v :: rest =>
      simp only [step]
      by_cases hlow : v < 183 ∧ v ≠ 108 ∧ v ≠ 76
      · simp [hlow]
      · rw [if_neg hlow]
        by_cases hcm : 1 < (if NEED_THREE.contains v then 3
            else if NEED_TWO.contains v then 2 else 1) ∧ 1 < (v :: rest).length
        · rw [if_pos hcm]
          exact middleLoop_len ctx _ _ _ lv _ ht
        · rw [if_neg hcm]
          cases singT ctx (isCldr opt) v with
          | none => simp
          | some row => simp

/-! Fuel bookkeeping for the outer loop. -/

theorem getCeaAux_nil (ctx : Ctx) (opt : CollationOptions) (fuel : Nat) (lv : Bool) :
    getCeaAux ctx opt fuel [] lv = [] := by
  cases fuel <;> rfl

theorem getCeaAux_irrel (ctx : Ctx) (opt : CollationOptions) :
    ∀ (n : Nat) (t : List Nat) (lv : Bool) (f1 f2 : Nat), t.length ≤ n →
      t.length ≤ f1 → t.length ≤ f2 →
      getCeaAux ctx opt f1 t lv = getCeaAux ctx opt f2 t lv := by
  intro n
  induction n with
  | zero =>
      intro t lv f1 f2 hn _ _
      have : t = [] := List.length_eq_zero.mp (Nat.le_zero.mp hn)
      subst this
      rw [getCeaAux_nil, getCeaAux_nil]
  | succ n ih =>
      intro t lv f1 f2 hn h1 h2
      match t with
      | [] => rw [getCeaAux_nil, getCeaAux_nil]
      | v :: rest =>
          match f1, f2 with
          | g1 + 1, g2 + 1 =>
              have hlt := step_len ctx opt (v :: rest) lv (by simp)
              rw [List.length_cons] at hlt
              have hn' : rest.length + 1 ≤ n + 1 := by simpa using hn
              have h1' : rest.length + 1 ≤ g1 + 1 := by simpa using h1
              have h2' : rest.length + 1 ≤ g2 + 1 := by simpa using h2
              simp only [getCeaAux]
              have hrec := ih (step ctx opt (v :: rest) lv).2.1
                (step ctx opt (v :: rest) lv).2.2 g1 g2
                (by omega) (by omega) (by omega)
              rw [hrec]

/-- The outer loop of `get_cea` run to completion from an arbitrary tail and
`last_variable` state. -/
def ceaRun (ctx : Ctx) (opt : CollationOptions) (t : List Nat) (lv : Bool) :
    List CE :=
  getCeaAux ctx opt t.length t lv

theorem getCea_eq_ceaRun (ctx : Ctx) (opt : CollationOptions) (cv : List Nat) :
    getCea ctx opt cv = ceaRun ctx opt cv false := rfl

theorem ceaRun_step (ctx : Ctx) (opt : CollationOptions) (v : Nat)
    (rest : List Nat) (lv : Bool) :
    ceaRun ctx opt (v :: rest) lv =
      (step ctx opt (v :: rest) lv).1 ++
        ceaRun ctx opt (step ctx opt (v :: rest) lv).2.1
          (step ctx opt (v :: rest) lv).2.2 := by
  have hlt := step_len ctx opt (v :: rest) lv (by simp)
  rw [List.length_cons] at hlt
  show getCeaAux ctx opt (rest.length + 1) (v :: rest) lv = _
  simp only [getCeaAux]
  rw [getCeaAux_irrel ctx opt rest.length _ _ rest.length
    (step ctx opt (v :: rest) lv).2.1.length (by omega) (by omega) le_rfl]
  rfl

/-! Processing of code points outside `NEED_TWO ∪ NEED_THREE`: such a code
point is handled by the low fast path, the singles path or the implicit
path, none of which inspects the rest of the buffer. -/

/-- Collation elements emitted for a single code point outside
`NEED_TWO ∪ NEED_THREE`, with the updated `last_variable`. -/
def emitOne (ctx : Ctx) (opt : CollationOptions) (v : Nat) (lv : Bool) :
    List CE × Bool :=
  if v < 183 ∧ v ≠ 108 ∧ v ≠ 76 then
    let (e, lv') := pushW opt.shifting ((lowT ctx (isCldr opt) v).getD default) lv
    ([e], lv')
  else
    match singT ctx (isCldr opt) v with
    | some row => pushRow opt.shifting row lv
    | none => ([getImplicitA v opt.shifting, getImplicitB v opt.shifting], lv)

theorem step_noNeed (ctx : Ctx) (opt : CollationOptions) (v : Nat)
    (rest : List Nat) (lv : Bool) (h2 : NEED_TWO.contains v = false)
    (h3 : NEED_THREE.contains v = false) :
    step ctx opt (v :: rest) lv =
      ((emitOne ctx opt v lv).1, rest, (emitOne ctx opt v lv).2) := by
  simp only [step, emitOne, h2, h3, Bool.false_eq_true, if_false]
  by_cases hlow : v < 183 ∧ v ≠ 108 ∧ v ≠ 76
  · simp [hlow]
  · rw [if_neg hlow, if_neg hlow]
    have hno : ¬((1 : Nat) < 1 ∧ 1 < (v :: rest).length) := by omega
    rw [if_neg hno]
    cases singT ctx (isCldr opt) v <;> simp

/-- The outer loop restricted to a prefix of code points outside
`NEED_TWO ∪ NEED_THREE`: elementwise emission threading `last_variable`. -/
def processPre (ctx : Ctx) (opt : CollationOptions) :
    List Nat → Bool → List CE × Bool
  | [], lv => ([], lv)
  | v :: vs, lv =>
      let (es, lv') := emitOne ctx opt v lv
      let (es2, lv'') := processPre ctx opt vs lv'
      (es ++ es2, lv'')

theorem ceaRun_split (ctx : Ctx) (opt : CollationOptions) (p s : List Nat)
    (lv : Bool)
    (hp : ∀ v ∈ p, NEED_TWO.contains v = false ∧ NEED_THREE.contains v = false) :
    ceaRun ctx opt (p ++ s) lv =
      (processPre ctx opt p lv).1 ++ ceaRun ctx opt s (processPre ctx opt p lv).2 := by
  induction p generalizing lv with
  | nil => simp [processPre]
  | cons v vs ih =>
      have hv := hp v (by simp)
      have hvs : ∀ w ∈ vs, NEED_TWO.contains w = false ∧ NEED_THREE.contains w = false :=
        fun w hw => hp w (by simp [hw])
      rw [List.cons_append, ceaRun_step, step_noNeed ctx opt v (vs ++ s) lv hv.1 hv.2]
      simp only [processPre]
      rw [ih _ hvs]
      cases he : emitOne ctx opt v lv with
      | mk es lv' =>
          cases hpp : processPre ctx opt vs lv' with
          | mk es2 lv'' => simp [he, hpp, List.append_assoc]

/-! Properties of `find_prefix` and `trim_prefix`. -/

theorem findPref_le_left (a b : List Nat) : findPref a b ≤ a.length := by
  induction a generalizing b with
  | nil => simp [findPref]
  | cons x xs ih =>
      cases b with
      | nil => simp [findPref]
      | cons y ys =>
          simp only [findPref]
          split
          · simpa using Nat.succ_le_succ (ih ys)
          · simp

theorem findPref_le_right (a b : List Nat) : findPref a b ≤ b.length := by
  induction a generalizing b with
  | nil => simp [findPref]
  | cons x xs ih =>
      cases b with
      | nil => simp [findPref]
      | cons y ys =>
          simp only [findPref]
          split
          · simpa using Nat.succ_le_succ (ih ys)
          · simp

theorem findPref_take_eq (a b : List Nat) :
    a.take (findPref a b) = b.take (findPref a b) := by
  induction a generalizing b with
  | nil => simp [findPref]
  | cons x xs ih =>
      cases b with
      | nil => simp [findPref]
      | cons y ys =>
          simp only [findPref]
          split
          · next h =>
              rw [List.take_succ_cons, List.take_succ_cons, h.1, ih ys]
          · simp

theorem findPref_mem (a b : List Nat) :
    ∀ v ∈ a.take (findPref a b),
      NEED_TWO.contains v = false ∧ NEED_THREE.contains v = false := by
  induction a generalizing b with
  | nil => simp [findPref]
  | cons x xs ih =>
      cases b with
      | nil => simp [findPref]
      | cons y ys =>
          simp only [findPref]
          split
          · next h =>
              rw [List.take_succ_cons]
              intro v hv
              rcases List.mem_cons.1 hv with rfl | hv'
              · exact ⟨h.2.2, h.2.1⟩
              · exact ih ys v hv'
          · simp

theorem trimPref_cases (ctx : Ctx) (cldr : Bool) (a b : List Nat) :
    trimPref ctx cldr a b = (a, b) ∨
      (0 < findPref a b ∧
        trimPref ctx cldr a b =
          (a.drop (findPref a b), b.drop (findPref a b))) := by
  simp only [trimPref]
  by_cases hp : 0 < findPref a b
  · rw [if_pos hp]
    cases singT ctx cldr (a.getD (findPref a b - 1) 0) with
    | none => exact Or.inr ⟨hp, rfl⟩
    | some row =>
        dsimp only
        by_cases hbad : row.any (fun w => w.var || w.primary == 0)
        · rw [if_pos hbad]
          exact Or.inl rfl
        · rw [if_neg hbad]
          exact Or.inr ⟨hp, rfl⟩
  · rw [if_neg hp]
    exact Or.inl rfl

/-- C1 (amended): the lexicographic comparison of the two independently
produced sort keys (NFD, CE generation, flattening, no prefix trimming)
equals `collate_no_tiebreak` — the equal-NFD early return never changes the
outcome, and the prefix trim never changes it PROVIDED that, whenever the
trim actually removes a nonempty prefix, running the CE generator over that
prefix from `last_variable = false` ends with `last_variable = false`.  (The
proviso is forced by the counterexample `c1_trim_changes_outcome`: the trim
also fires when the final prefix code point has no singles row, and the
implicit-weight path leaves `last_variable` untouched, so a variable code
point inside the prefix can leak `last_variable = true` into the untrimmed
computation only.) -/
theorem c1_amended_sort_key_equivalence (ctx : Ctx) (opt : CollationOptions)
    (a b : List Nat)
    (H : trimPref ctx (isCldr opt) (getNfd ctx a) (getNfd ctx b) ≠
        (getNfd ctx a, getNfd ctx b) →
      (processPre ctx opt
        ((getNfd ctx a).take (findPref (getNfd ctx a) (getNfd ctx b)))
        false).2 = false) :
    compareL (skOf ctx opt a) (skOf ctx opt b) = collateNoTiebreak ctx opt a b := by
  by_cases hab : a = b
  · subst hab
    simp [collateNoTiebreak, compareL_self]
  · simp only [collateNoTiebreak, if_neg hab]
    set na := getNfd ctx a with hna
    set nb := getNfd ctx b with hnb
    by_cases hn : na = nb
    · rw [if_pos hn]
      show compareL (nfdToSk ctx opt na) (nfdToSk ctx opt nb) = _
      rw [hn, compareL_self]
    · rw [if_neg hn]
      rcases trimPref_cases ctx (isCldr opt) na nb with heq | ⟨hp, heq⟩
      · rw [heq]
        rfl
      · rw [heq]
        set p := findPref na nb with hpd
        have hmem_a := findPref_mem na nb
        have htake := findPref_take_eq na nb
        have hmem_b : ∀ v ∈ nb.take p,
            NEED_TWO.contains v = false ∧ NEED_THREE.contains v = false := by
          rw [← htake]
          exact hmem_a
        have hne : trimPref ctx (isCldr opt) na nb ≠ (na, nb) := by
          rw [heq]
          intro hcontra
          have h1 : na.drop p = na := congrArg Prod.fst hcontra
          have h2 : (na.drop p).length = na.length := congrArg List.length h1
          rw [List.length_drop] at h2
          have hle := findPref_le_left na nb
          omega
        have hlv := H hne
        have hsa : ceaRun ctx opt na false =
            (processPre ctx opt (na.take p) false).1 ++
              ceaRun ctx opt (na.drop p)
                (processPre ctx opt (na.take p) false).2 := by
          conv_lhs => rw [← List.take_append_drop p na]
          exact ceaRun_split ctx opt _ _ false hmem_a
        have hsb : ceaRun ctx opt nb false =
            (processPre ctx opt (na.take p) false).1 ++
              ceaRun ctx opt (nb.drop p)
                (processPre ctx opt (na.take p) false).2 := by
          conv_lhs => rw [← List.take_append_drop p nb]
          rw [ceaRun_split ctx opt _ _ false hmem_b, ← htake]
        show compareL (getSortKey (ceaRun ctx opt na false) opt.shifting)
            (getSortKey (ceaRun ctx opt nb false) opt.shifting) = _
        rw [hsa, hsb, hlv, cmp_sk_append]
        rfl

/-! Concrete contexts used for counterexamples and witnesses.  The tables of
the repository are embedded binary blobs (not source under `src/`), so these
are small instances of the table shapes described by the spec. -/

/-- Shifting CLDR options (the crate default). -/
def optShift : CollationOptions := ⟨KeysSource.Cldr, true⟩

/-- Non-shifting CLDR options. -/
def optNoShift : CollationOptions := ⟨KeysSource.Cldr, false⟩

/-- Trivial context: empty tables, CCC zero everywhere, identity NFD. -/
def ctx0 : Ctx where
  lowD := fun _ => none
  lowC := fun _ => none
  singD := fun _ => none
  singC := fun _ => none
  multD := fun _ => none
  multC := fun _ => none
  fcdMap := fun _ => none
  ccc := fun _ => 0
  nfd := id

/-- Context for the C1 counterexample: code point 300 is a variable with
primary 5; 500 has no singles row (implicit weights); 700 has a single
non-variable zero-primary nonzero-tertiary row; 999 is fully ignorable. -/
def ctxC1 : Ctx where
  lowD := fun _ => none
  lowC := fun _ => none
  singD := fun n =>
    if n = 300 then some [⟨true, 5, 0, 0⟩]
    else if n = 700 then some [⟨false, 0, 0, 9⟩]
    else if n = 999 then some [⟨false, 0, 0, 0⟩]
    else none
  singC := fun n =>
    if n = 300 then some [⟨true, 5, 0, 0⟩]
    else if n = 700 then some [⟨false, 0, 0, 9⟩]
    else if n = 999 then some [⟨false, 0, 0, 0⟩]
    else none
  multD := fun _ => none
  multC := fun _ => none
  fcdMap := fun _ => none
  ccc := fun _ => 0
  nfd := id

/-- Context for the C3 counterexample: `76 ∈ NEED_TWO` starts the
contractions `[76, 1000] ↦ 100` and `[76, 1000, 603] ↦ 900`; the code points
601, 602, 603 are non-starters with strictly increasing CCCs 10, 20, 30. -/
def ctxC3 : Ctx where
  lowD := fun _ => none
  lowC := fun _ => none
  singD := fun n =>
    if n = 601 then some [⟨false, 601, 1, 1⟩]
    else if n = 602 then some [⟨false, 602, 1, 1⟩]
    else if n = 603 then some [⟨false, 603, 1, 1⟩]
    else none
  singC := fun n =>
    if n = 601 then some [⟨false, 601, 1, 1⟩]
    else if n = 602 then some [⟨false, 602, 1, 1⟩]
    else if n = 603 then some [⟨false, 603, 1, 1⟩]
    else none
  multD := fun _ => none
  multC := fun k =>
    if k = [76, 1000] then some [⟨false, 100, 1, 1⟩]
    else if k = [76, 1000, 603] then some [⟨false, 900, 1, 1⟩]
    else none
  fcdMap := fun _ => none
  ccc := fun n =>
    if n = 601 then 10 else if n = 602 then 20 else if n = 603 then 30 else 0
  nfd := id

/-- Context whose NFD transform collapses every input to `[42]`: distinct
non-FCD strings with equal NFD. -/
def ctxTie : Ctx where
  lowD := fun _ => none
  lowC := fun _ => none
  singD := fun _ => none
  singC := fun _ => none
  multD := fun _ => none
  multC := fun _ => none
  fcdMap := fun _ => none
  ccc := fun _ => 0
  nfd := fun _ => [42]

/-- C1, counterexample: the claim fails as stated.  With `ctxC1`, the two
strings `[300, 500, 700]` and `[300, 500, 999]` have equal full sort keys
(the variable 300 sets `last_variable`; the implicit-weight 500 leaves it
set; so 700's zero-primary nonzero-tertiary row collapses to `[0,0,0,0]`,
as does the fully ignorable 999), hence the sort-key comparison is `eq`.
But `collate_no_tiebreak` trims the prefix `[300, 500]` — 500 has no
singles row, so the trim guard passes — and regenerates the suffix keys
from `last_variable = false`, where 700 now yields `[0, 0, 9, 65535]`,
giving `gt`. -/
theorem c1_trim_changes_outcome :
    compareL (skOf ctxC1 optShift [300, 500, 700]) (skOf ctxC1 optShift [300, 500, 999]) =
      Ordering.eq ∧
    collateNoTiebreak ctxC1 optShift [300, 500, 700] [300, 500, 999] = Ordering.gt := by
  decide

/-- C1, witness: the amended theorem applied at a concrete input where the
trim fires (500 has no singles row) and the hypothesis holds (the trimmed
prefix `[500]` is processed by the implicit path, leaving `last_variable`
false). -/
theorem c1_amended_witness :
    (trimPref ctxC1 (isCldr optShift) (getNfd ctxC1 [500, 700]) (getNfd ctxC1 [500, 999]) ≠
        (getNfd ctxC1 [500, 700], getNfd ctxC1 [500, 999]) →
      (processPre ctxC1 optShift
        ((getNfd ctxC1 [500, 700]).take
          (findPref (getNfd ctxC1 [500, 700]) (getNfd ctxC1 [500, 999]))) false).2 =
        false) ∧
    compareL (skOf ctxC1 optShift [500, 700]) (skOf ctxC1 optShift [500, 999]) =
      collateNoTiebreak ctxC1 optShift [500, 700] [500, 999] :=
  ⟨by decide,
   c1_amended_sort_key_equivalence ctxC1 optShift [500, 700] [500, 999] (by decide)⟩

/-! Indexwise characterization of `find_prefix`. -/

theorem findPref_spec_lt (a b : List Nat) :
    ∀ i, i < findPref a b →
      a.getD i 0 = b.getD i 0 ∧ NEED_TWO.contains (a.getD i 0) = false ∧
        NEED_THREE.contains (a.getD i 0) = false := by
  induction a generalizing b with
  | nil => simp [findPref]
  | cons x xs ih =>
      cases b with
      | nil => simp [findPref]
      | cons y ys =>
          intro i hi
          simp only [findPref] at hi
          split at hi
          · next h =>
              cases i with
              | zero => exact ⟨h.1, h.2.2, h.2.1⟩
              | succ j =>
                  simpa using ih ys j (by omega)
          · omega

theorem findPref_max (a b : List Nat) (ha : findPref a b < a.length)
    (hb : findPref a b < b.length) :
    ¬(a.getD (findPref a b) 0 = b.getD (findPref a b) 0 ∧
      NEED_TWO.contains (a.getD (findPref a b) 0) = false ∧
      NEED_THREE.contains (a.getD (findPref a b) 0) = false) := by
  induction a generalizing b with
  | nil => simp at ha
  | cons x xs ih =>
      cases b with
      | nil => simp at hb
      | cons y ys =>
          by_cases h : x = y ∧ NEED_THREE.contains x = false ∧ NEED_TWO.contains x = false
          · have hfp : findPref (x :: xs) (y :: ys) = findPref xs ys + 1 := by
              simp only [findPref, if_pos h]
            rw [hfp] at ha hb ⊢
            simpa using ih ys (by simpa using ha) (by simpa using hb)
          · have hfp : findPref (x :: xs) (y :: ys) = 0 := by
              simp only [findPref, if_neg h]
            rw [hfp]
            intro hc
            exact h ⟨hc.1, hc.2.2, hc.2.1⟩

/-- C2 (amended): the trimmed prefix is the longest common prefix avoiding
`NEED_TWO ∪ NEED_THREE` (parts 1 and 2), and the trim fires exactly when the
prefix is nonempty and the final prefix code point EITHER has a singles row
free of variable and zero-primary entries OR has no singles row at all (the
amendment: the claim said a missing row suppresses the trim; the source's
`if let Some(row)` guard means it does not). -/
theorem c2_amended_trim_characterization (ctx : Ctx) (cldr : Bool)
    (a b : List Nat) :
    (∀ i, i < findPref a b →
      a.getD i 0 = b.getD i 0 ∧ NEED_TWO.contains (a.getD i 0) = false ∧
        NEED_THREE.contains (a.getD i 0) = false) ∧
    (findPref a b < a.length → findPref a b < b.length →
      ¬(a.getD (findPref a b) 0 = b.getD (findPref a b) 0 ∧
        NEED_TWO.contains (a.getD (findPref a b) 0) = false ∧
        NEED_THREE.contains (a.getD (findPref a b) 0) = false)) ∧
    (0 < findPref a b → singT ctx cldr (a.getD (findPref a b - 1) 0) = none →
      trimPref ctx cldr a b = (a.drop (findPref a b), b.drop (findPref a b))) ∧
    (∀ row, 0 < findPref a b →
      singT ctx cldr (a.getD (findPref a b - 1) 0) = some row →
      row.any (fun w => w.var || w.primary == 0) = false →
      trimPref ctx cldr a b = (a.drop (findPref a b), b.drop (findPref a b))) ∧
    (∀ row, 0 < findPref a b →
      singT ctx cldr (a.getD (findPref a b - 1) 0) = some row →
      row.any (fun w => w.var || w.primary == 0) = true →
      trimPref ctx cldr a b = (a, b)) ∧
    (findPref a b = 0 → trimPref ctx cldr a b = (a, b)) := by
  refine ⟨findPref_spec_lt a b, findPref_max a b, ?_, ?_, ?_, ?_⟩
  · intro hp hnone
    simp only [trimPref, if_pos hp, hnone]
  · intro row hp hrow hok
    simp only [trimPref, if_pos hp, hrow]
    rw [if_neg (by simp [hok])]
  · intro row hp hrow hbad
    simp only [trimPref, if_pos hp, hrow]
    rw [if_pos hbad]
  · intro hp
    simp only [trimPref, hp]
    rw [if_neg (by omega)]

/-- C2, counterexample: with empty singles tables the final prefix code
point 500 has no singles row, yet `trim_prefix` removes the prefix — the
claim said both sequences would be left unchanged in that case. -/
theorem c2_trim_fires_without_singles_row :
    trimPref ctx0 true [500, 1] [500, 2] = ([1], [2]) ∧
    trimPref ctx0 true [500, 1] [500, 2] ≠ ([500, 1], [500, 2]) := by
  decide

/-- C2, witness: the amended characterization applied at a concrete input
(the missing-singles-row branch). -/
theorem c2_amended_witness :
    trimPref ctx0 true [500, 1] [500, 2] =
      (List.drop (findPref [500, 1] [500, 2]) [500, 1],
       List.drop (findPref [500, 1] [500, 2]) [500, 2]) :=
  (c2_amended_trim_characterization ctx0 true [500, 1] [500, 2]).2.2.1
    (by decide) (by decide)

/-- C3, counterexample: with `ctxC3`, the buffer `[76, 1000, 601, 602, 603]`
matches the length-2 slice `[76, 1000]`.  Under the claim's 4.3.1-style
extension policy the window would reach the non-starter 603 at
`right + 2` (the cohort 601, 602, 603 has strictly increasing nonzero CCCs
10 < 20 < 30) and absorb it through the table entry `[76, 1000, 603]`,
emitting its row with primary 900.  The code instead only inspects
`cv[right + 1]`, fails the lookup `[76, 1000, 602]`, performs no extension
at all, and emits the length-2 row with primary 100 followed by the three
singles rows. -/
theorem c3_no_spec_extension_after_slice_match :
    getCea ctxC3 optNoShift [76, 1000, 601, 602, 603] =
      [[100, 1, 1], [601, 1, 1], [602, 1, 1], [603, 1, 1]] ∧
    multT ctxC3 true [76, 1000, 603] = some [⟨false, 900, 1, 1⟩] ∧
    ctxC3.ccc 601 = 10 ∧ ctxC3.ccc 602 = 20 ∧ ctxC3.ccc 603 = 30 ∧
    getCea ctxC3 optNoShift [76, 1000, 601, 602, 603] ≠
      [[900, 1, 1], [601, 1, 1], [602, 1, 1]] := by
  decide

/-- C3 (amended): after a contiguous multis match the CE generator attempts
a discontiguous extension only for slices of length exactly 2, absorbing at
most ONE additional code point, namely `cv[right + 1]` (skipping the single
intervening non-starter `cv[right]`), and only when
`ccc(cv[right]) ≠ 0 ∧ ccc(cv[right]) < ccc(cv[right + 1])` and the extended
key is in the multis table; a length-3 match is emitted as-is with no
extension attempt, and the `try_two` two-point absorption of the
single-starter search is never used here. -/
theorem c3_amended_slice_extension (ctx : Ctx) (sh cldr : Bool)
    (t : List Nat) (lv : Bool) :
    (∀ row, multT ctx cldr (t.take 3) = some row →
      middleLoop ctx sh cldr t lv 3 =
        ((pushRow sh row lv).1, t.drop 3, (pushRow sh row lv).2)) ∧
    (∀ row, multT ctx cldr (t.take 2) = some row →
      middleLoop ctx sh cldr t lv 2 =
        (if 3 < t.length ∧ ctx.ccc (t.getD 2 0) ≠ 0 ∧
            ctx.ccc (t.getD 2 0) < ctx.ccc (t.getD 3 0) then
          (match multT ctx cldr (t.take 2 ++ [t.getD 3 0]) with
          | some nv =>
              ((pushRow sh nv lv).1, (t.eraseIdx 3).drop 2, (pushRow sh nv lv).2)
          | none => ((pushRow sh row lv).1, t.drop 2, (pushRow sh row lv).2))
        else ((pushRow sh row lv).1, t.drop 2, (pushRow sh row lv).2))) := by
  constructor
  · intro row hrow
    show middleLoop ctx sh cldr t lv (1 + 2) = _
    simp only [middleLoop, hrow]
    rw [if_neg (by omega)]
  · intro row hrow
    show middleLoop ctx sh cldr t lv (0 + 2) = _
    simp only [middleLoop, hrow]
    by_cases hlen : 3 < t.length
    · rw [if_pos ⟨trivial, hlen⟩]
      by_cases hccc : ctx.ccc (t.getD 2 0) = 0 ∨
          ctx.ccc (t.getD 3 0) ≤ ctx.ccc (t.getD 2 0)
      · rw [if_pos hccc, if_neg (by omega)]
      · rw [if_neg hccc, if_pos (by omega)]
    · rw [if_neg (by omega), if_neg (by omega)]

/-- C3, witness: the amended theorem applied to the counterexample buffer;
the length-2 match is emitted with no absorption because the extended key
`[76, 1000, 602]` is absent. -/
theorem c3_amended_witness :
    middleLoop ctxC3 false true [76, 1000, 601, 602, 603] false 2 =
      ([[100, 1, 1]], [601, 602, 603], false) := by
  have h := (c3_amended_slice_extension ctxC3 false true
    [76, 1000, 601, 602, 603] false).2 [⟨false, 100, 1, 1⟩] (by decide)
  rw [h]
  decide

/-- C4, counterexample: `fcd` returns false immediately on 55210 = 0xD7AA,
which is neither 3969 nor within the claim's range 0xAC00..=0xD7A3
(44032..=55203); under the claim it would instead proceed to the FCD-table /
CCC step, which with `ctx0` (no table entry, CCC zero) could not return
false.  The source range is `44_032..=55_215` (0xAC00..=0xD7AF). -/
theorem c4_immediate_false_beyond_claimed_range :
    fcd ctx0 [55210] = false ∧ (55210 : Nat) ≠ 3969 ∧
    ¬(44032 ≤ (55210 : Nat) ∧ (55210 : Nat) ≤ 55203) ∧
    leadCC ctx0 55210 = 0 := by
  decide

/-- C4 (amended): on encountering code point `c` with previous trail CCC
`prev`, the FCD walk returns false regardless of the rest of the input
exactly when `c ≥ 192` and either `c = 3969` or `44032 ≤ c ≤ 55215` (the
source's upper bound 0xD7AF, not the claim's 0xD7A3), or else when the
nonzero lead CCC of `c` is smaller than `prev`. -/
theorem c4_amended_fcd_immediate_false (ctx : Ctx) (prev c : Nat) :
    (∀ rest, fcdAux ctx prev (c :: rest) = false) ↔
      ((192 ≤ c ∧ (c = 3969 ∨ (44032 ≤ c ∧ c ≤ 55215))) ∨
       (192 ≤ c ∧ ¬(c = 3969 ∨ (44032 ≤ c ∧ c ≤ 55215)) ∧
         leadCC ctx c ≠ 0 ∧ leadCC ctx c < prev)) := by
  by_cases hlow : c < 192
  · constructor
    · intro h
      have := h []
      simp only [fcdAux, if_pos hlow] at this
      exact absurd this (by simp)
    · intro h
      omega
  · by_cases hrange : c = 3969 ∨ (44032 ≤ c ∧ c ≤ 55215)
    · constructor
      · intro _
        exact Or.inl ⟨by omega, hrange⟩
      · intro _ rest
        simp only [fcdAux, if_neg hlow, if_pos hrange]
    · by_cases hlead : leadCC ctx c ≠ 0 ∧ leadCC ctx c < prev
      · constructor
        · intro _
          exact Or.inr ⟨by omega, hrange, hlead⟩
        · intro _ rest
          simp only [fcdAux, if_neg hlow, if_neg hrange, if_pos hlead]
      · constructor
        · intro h
          have := h []
          simp only [fcdAux, if_neg hlow, if_neg hrange, if_neg hlead] at this
          exact absurd this (by simp)
        · intro h
          rcases h with h | h
          · exact absurd h.2 hrange
          · exact absurd h.2.2 hlead

/-- C4, witness: the amended characterization applied at 44100 (inside the
source's Hangul range) with `prev = 0`. -/
theorem c4_amended_witness : fcdAux ctx0 0 [44100] = false :=
  (c4_amended_fcd_immediate_false ctx0 0 44100).mpr (by decide) []

/-- C6, counterexample: the sort key of the empty string has `L - 1`
separators, i.e. `[0, 0, 0]` when shifting and `[0, 0]` when not — one
fewer zero in each mode than the claim states. -/
theorem c6_empty_sort_key_counterexample :
    skOf ctx0 optShift [] = [0, 0, 0] ∧ skOf ctx0 optNoShift [] = [0, 0] ∧
    skOf ctx0 optShift [] ≠ [0, 0, 0, 0] ∧ skOf ctx0 optNoShift [] ≠ [0, 0, 0] := by
  decide

/-- C6 (amended): for every context and options value, the sort key of the
empty string is `[0, 0]` in non-shifting mode and `[0, 0, 0]` in shifting
mode — exactly the `L - 1` level separators. -/
theorem c6_amended_empty_sort_key (ctx : Ctx) (opt : CollationOptions) :
    skOf ctx opt [] = if opt.shifting then [0, 0, 0] else [0, 0] := by
  cases opt with
  | mk ks sh => cases sh <;> rfl

/-- C7 (confirmed): every sort key is the concatenation of its `L` level
segments joined by single zero separators (so exactly `L - 1` zeros and no
trailing terminator), and every non-separator entry is a nonzero `i`-th
weight of some collation element. -/
theorem c7_level_separator_structure (cea : List CE) (sh : Bool) :
    getSortKey cea sh =
      (if sh then
        levelW cea 0 ++ 0 :: (levelW cea 1 ++ 0 :: (levelW cea 2 ++ 0 :: levelW cea 3))
      else levelW cea 0 ++ 0 :: (levelW cea 1 ++ 0 :: levelW cea 2)) ∧
    List.count 0 (getSortKey cea sh) = (if sh then 3 else 2) ∧
    (∀ i, ∀ z ∈ levelW cea i, z ≠ 0 ∧ ∃ e ∈ cea, e.getD i 0 = z) := by
  have hstruct : getSortKey cea sh =
      (if sh then
        levelW cea 0 ++ 0 :: (levelW cea 1 ++ 0 :: (levelW cea 2 ++ 0 :: levelW cea 3))
      else levelW cea 0 ++ 0 :: (levelW cea 1 ++ 0 :: levelW cea 2)) := by
    cases sh
    · simpa using getSortKey_nonshifting cea
    · simpa using getSortKey_shifting cea
  have hcount0 : ∀ i, List.count 0 (levelW cea i) = 0 := by
    intro i
    exact List.count_eq_zero.mpr (fun hmem => levelW_ne_zero cea i 0 hmem rfl)
  refine ⟨hstruct, ?_, ?_⟩
  · rw [hstruct]
    cases sh <;>
      simp [List.count_append, List.count_cons, hcount0]
  · intro i z hz
    refine ⟨levelW_ne_zero cea i z hz, ?_⟩
    simp only [levelW, List.mem_filterMap] at hz
    obtain ⟨e, he, heq⟩ := hz
    by_cases h : e.getD i 0 ≠ 0
    · rw [if_pos h] at heq
      exact ⟨e, he, Option.some_inj.mp heq⟩
    · rw [if_neg h] at heq
      exact absurd heq (by simp)

/-- C7, witness: structure and zero count on a concrete CE sequence. -/
theorem c7_witness :
    List.count 0 (getSortKey [[1, 2, 3, 4], [0, 5, 0, 7]] true) = 3 :=
  (c7_level_separator_structure [[1, 2, 3, 4], [0, 5, 0, 7]] true).2.1

/-- Modelled from the spec: claim C8's reading of the shifting emission, in
which the `last_variable` update is attached to the emission case that
fires — in particular case (1), an all-zero weights record, leaves
`last_variable` unchanged even when the record's variable flag is set. -/
def claimShiftEmit (w : Weights) (lv : Bool) : CE × Bool :=
  if w.primary = 0 ∧ w.secondary = 0 ∧ w.tertiary = 0 then ([0, 0, 0, 0], lv)
  else if w.var then ([0, 0, 0, w.primary], true)
  else if lv ∧ w.primary = 0 ∧ w.tertiary ≠ 0 then ([0, 0, 0, 0], lv)
  else ([w.primary, w.secondary, w.tertiary, 65535],
    if w.primary ≠ 0 then false else lv)

/-- C8, counterexample: for an all-zero weights record whose variable flag
is set, the source still runs the push-site update
`if weights.variable { last_variable = true }`, so `last_variable` becomes
true although the claim's first matching case (1) fired and attached no
update. -/
theorem c8_all_zero_variable_updates_lv :
    pushW true ⟨true, 0, 0, 0⟩ false = ([0, 0, 0, 0], true) ∧
    claimShiftEmit ⟨true, 0, 0, 0⟩ false = ([0, 0, 0, 0], false) ∧
    pushW true ⟨true, 0, 0, 0⟩ false ≠ claimShiftEmit ⟨true, 0, 0, 0⟩ false := by
  decide

/-- Claim C8's four emission cases with the `last_variable` update corrected
to be independent of which case fires: `last_variable` becomes true whenever
the record is variable (even all-zero), otherwise false whenever the primary
is nonzero, otherwise it is unchanged. -/
def claimShiftEmitAmended (w : Weights) (lv : Bool) : CE × Bool :=
  if w.primary = 0 ∧ w.secondary = 0 ∧ w.tertiary = 0 then
    ([0, 0, 0, 0], if w.var then true else lv)
  else if w.var then ([0, 0, 0, w.primary], true)
  else if lv ∧ w.primary = 0 ∧ w.tertiary ≠ 0 then ([0, 0, 0, 0], lv)
  else ([w.primary, w.secondary, w.tertiary, 65535],
    if w.primary ≠ 0 then false else lv)

/-- C8 (amended): in shifting mode each weights record is emitted by the
first matching of the claim's four cases, and `last_variable` is updated
independently of the emission case: set on a variable record (including the
all-zero case the claim attached no update to), cleared on a nonzero
primary, otherwise unchanged. -/
theorem c8_amended_shifting_emission (w : Weights) (lv : Bool) :
    pushW true w lv = claimShiftEmitAmended w lv := by
  by_cases h0 : w.primary = 0 ∧ w.secondary = 0 ∧ w.tertiary = 0
  · cases hv : w.var <;>
      simp [pushW, getWeightsShifting, claimShiftEmitAmended, h0, hv, h0.1]
  · by_cases hv : w.var = true
    · simp [pushW, getWeightsShifting, claimShiftEmitAmended, h0, hv]
    · have hvf : w.var = false := by
        revert hv
        cases w.var <;> simp
      by_cases h3 : lv ∧ w.primary = 0 ∧ w.tertiary ≠ 0
      · simp [pushW, getWeightsShifting, claimShiftEmitAmended, h0, hvf, h3, h3.2.1]
      · simp [pushW, getWeightsShifting, claimShiftEmitAmended, h0, hvf, h3]

/-- C9 (confirmed): the outer loop of the CE generator strictly decreases
its measure — the number of code points at or after the cursor — on every
iteration (in the tail embedding: every `step` on a nonempty tail returns a
strictly shorter tail, through in-place removals included), and `collate`
is total, returning one of the three `Ordering` values for every pair of
inputs and every options value. -/
theorem c9_termination_and_totality :
    (∀ (ctx : Ctx) (opt : CollationOptions) (t : List Nat) (lv : Bool),
      t ≠ [] → ((step ctx opt t lv).2.1).length < t.length) ∧
    (∀ (ctx : Ctx) (opt : CollationOptions) (a b : List Nat),
      collate ctx opt a b = Ordering.lt ∨ collate ctx opt a b = Ordering.eq ∨
        collate ctx opt a b = Ordering.gt) := by
  constructor
  · exact fun ctx opt t lv h => step_len ctx opt t lv h
  · intro ctx opt a b
    cases hc : collate ctx opt a b
    · exact Or.inl rfl
    · exact Or.inr (Or.inl rfl)
    · exact Or.inr (Or.inr rfl)

/-- C9, witness: the measure decrease at a concrete nonempty tail, and
totality at concrete inputs. -/
theorem c9_witness :
    ((step ctx0 optShift [500] false).2.1).length < ([500] : List Nat).length ∧
    (collate ctx0 optShift [1] [2] = Ordering.lt ∨
      collate ctx0 optShift [1] [2] = Ordering.eq ∨
      collate ctx0 optShift [1] [2] = Ordering.gt) :=
  ⟨c9_termination_and_totality.1 ctx0 optShift [500] false (by decide),
   c9_termination_and_totality.2 ctx0 optShift [1] [2]⟩

/-- C10 (confirmed): `collate` returns `eq` exactly on byte-identical
strings — every non-equal path ends in the code-unit tiebreak, which on
distinct scalar sequences is strict — while `collate_no_tiebreak` can
return `eq` for distinct strings, e.g. two strings with the same NFD image
under `ctxTie`. -/
theorem c10_collate_eq_iff_identical :
    (∀ (ctx : Ctx) (opt : CollationOptions) (a b : List Nat),
      collate ctx opt a b = Ordering.eq ↔ a = b) ∧
    (collateNoTiebreak ctxTie optShift [3969, 1] [3969, 2] = Ordering.eq ∧
      ([3969, 1] : List Nat) ≠ [3969, 2] ∧
      collate ctxTie optShift [3969, 1] [3969, 2] ≠ Ordering.eq) := by
  constructor
  · intro ctx opt a b
    constructor
    · intro h
      by_contra hab
      simp only [collate, if_neg hab] at h
      by_cases hn : getNfd ctx a = getNfd ctx b
      · rw [if_pos hn] at h
        exact hab ((compareL_eq_iff a b).mp h)
      · rw [if_neg hn] at h
        by_cases hc : compareL
            (nfdToSk ctx opt (trimPref ctx (isCldr opt) (getNfd ctx a) (getNfd ctx b)).1)
            (nfdToSk ctx opt (trimPref ctx (isCldr opt) (getNfd ctx a) (getNfd ctx b)).2) =
            Ordering.eq
        · rw [if_pos hc] at h
          exact hab ((compareL_eq_iff a b).mp h)
        · rw [if_neg hc] at h
          exact hc h
    · intro h
      subst h
      simp [collate]
  · exact ⟨by decide, by decide, by decide⟩
